import Mathlib

/-!
Shallow embedding of `bulkimport/bulk_importer.py` (django-bulkimport).

The spreadsheet library, the Django ORM and the search index are external
collaborators; they are modelled explicitly:
  * a spreadsheet is a grid `List (List Value)` of cell values,
  * the database is a list of saved records (`DB`), `model.objects.get` is
    a filter over it, `save` inserts (fresh primary key) or updates in place,
  * `dateutil.parser.parse` is an injected function `Value → Option Value`
    (`Option.none` models a raised parse error),
  * the registered linking / auxiliary callbacks are observed through an
    event trace (`Event`), since the code only calls them for side effects.
Python exceptions over external database state are modelled by returning the
database and the trace accumulated so far next to an `Except` result: an
uncaught exception aborts processing but does not undo saves.
-/

set_option autoImplicit false

namespace BulkImport

/-- A spreadsheet cell value / model attribute value (`cell.value` in Python):
a string, an integer, a parsed date (abstract payload), or Python `None`. -/
inductive Value where
  | str (s : String)
  | int (n : Int)
  | date (d : Nat)
  | null
deriving DecidableEq, Repr

/-- Python `str.lower()` (character-wise lower-casing). -/
def pyLower (s : String) : String := ⟨s.data.map Char.toLower⟩

/-- Python truthiness of a `Value` (`if v.value`, `if not value`). -/
def Value.truthy : Value → Bool
  | .str s => !s.isEmpty
  | .int n => n != 0
  | .date _ => true
  | .null => false

/-- Classification of a Django model field, as used by `process_value`
(`isinstance(field, DateField)`, `CharField`, `TextField`, anything else). -/
inductive FieldKind where
  | dateField
  | charField
  | textField
  | otherField
deriving DecidableEq, Repr

/-- A Django model class: a name and its field declarations
(`instance._meta.get_field`). -/
structure Model where
  name : String
  fields : List (String × FieldKind)
deriving DecidableEq, Repr

/-- A model instance: its class, its primary key (`Option.none` while unsaved)
and its attribute assignments (latest assignment first). -/
structure Instance where
  model : Model
  pk : Option Nat
  attrs : List (String × Value)
deriving DecidableEq, Repr

/-- A saved database row. -/
structure Record where
  pk : Nat
  modelName : String
  attrs : List (String × Value)
deriving DecidableEq, Repr

/-- The database: the list of saved records. -/
abbrev DB := List Record

/-- First-match association lookup (Python attribute access on our
latest-first attribute lists). -/
def alookup (k : String) : List (String × Value) → Option Value
  | [] => Option.none
  | (k', v) :: rest => if k = k' then some v else alookup k rest

/-- `setattr(instance, f, v)`: record the assignment (latest first). -/
def Instance.setattr (i : Instance) (f : String) (v : Value) : Instance :=
  { i with attrs := (f, v) :: i.attrs }

/-- Attribute read on an instance; `Option.none` when never assigned
(default / unset value). -/
def Instance.attr (i : Instance) (f : String) : Option Value :=
  alookup f i.attrs

/-- `model.objects.filter(field=value)`: records of the model whose `field`
attribute equals `value`. `model.objects.get` demands exactly one result. -/
def dbGet (db : DB) (m : Model) (f : String) (v : Value) : List Record :=
  db.filter (fun r => decide (r.modelName = m.name ∧ alookup f r.attrs = some v))

/-- `instance.save()`: insert a fresh record (primary key = current database
length) when the instance has no primary key, otherwise update the record
with that key in place. Returns the new database and the saved instance. -/
def dbSave (db : DB) (i : Instance) : DB × Instance :=
  match i.pk with
  | Option.none =>
      (db ++ [⟨db.length, i.model.name, i.attrs⟩], { i with pk := some db.length })
  | some k =>
      (db.map (fun r => if r.pk = k then { r with attrs := i.attrs } else r), i)

/-- Python `list.index` (first occurrence), `Option.none` for `ValueError`. -/
def listIndex (l : List String) (x : String) : Option Nat
  := go l
where
  /-- recursion over the list -/
  go : List String → Option Nat
  | [] => Option.none
  | h :: t => if h = x then some 0 else (go t).map (· + 1)

/-- Uncaught Python exceptions of the importer. -/
inductive Err where
  | missingUniqueHeader (column : String)
  | multipleObjectsReturned
  | fieldDoesNotExist (field : String)
  | indexError
  | attributeError
  | typeError
deriving DecidableEq, Repr

/-- Observable callback / persistence events of one processing run. -/
inductive Event where
  | link (args : List Instance)
  | save (inst : Instance)
  | aux (idx : Nat) (headers : List String) (vals : List Value)
deriving DecidableEq, Repr

/-- Is this a linking-function invocation? -/
def Event.isLink : Event → Bool
  | .link _ => true
  | _ => false

/-- Is this a save? -/
def Event.isSave : Event → Bool
  | .save _ => true
  | _ => false

/-- `ModelMapping = namedtuple('ModelMapping', ['model', 'mapping',
'unique_column', 'unique_field'])`. -/
structure ModelMapping where
  model : Model
  mapping : List (String × String)
  unique_column : Option String
  unique_field : Option String
deriving DecidableEq, Repr

/-- `BulkDataImportHandler.__init__`. The linking function and the per-row
functions are arbitrary Python callables observed through the event trace, so
only their registration is kept (`linking_func` as a flag, `func_mappings`
as a list of identifiers). `dateutil.parser.parse` is injected as
`dateParse`. -/
structure BulkDataImportHandler where
  mappings : List ModelMapping
  linking_func : Bool
  func_mappings : List Nat
  header_row : Nat
  first_data_row : Nat
  dateParse : Value → Option Value

/-- A fresh handler (`BulkDataImportHandler()`), given the date parser. -/
def mkHandler (P : Value → Option Value) : BulkDataImportHandler :=
  ⟨[], false, [], 0, 1, P⟩

namespace BulkDataImportHandler

/-- `add_mapping(model, mapping, unique_column, unique_field)`:
`if unique_column: unique_column = unique_column.lower()` then append the
`ModelMapping`. -/
def add_mapping (bi : BulkDataImportHandler) (model : Model)
    (mapping : List (String × String)) (unique_column : Option String)
    (unique_field : Option String) : BulkDataImportHandler :=
  let uc := match unique_column with
    | Option.none => Option.none
    | some c => if c.isEmpty then some c else some (pyLower c)
  { bi with mappings := bi.mappings ++ [⟨model, mapping, uc, unique_field⟩] }

/-- `add_function_mapping(function)`: register a per-row callback. -/
def add_function_mapping (bi : BulkDataImportHandler) (idx : Nat) :
    BulkDataImportHandler :=
  { bi with func_mappings := bi.func_mappings ++ [idx] }

/-- `add_linking_function(function)`: register the linking callback. -/
def add_linking_function (bi : BulkDataImportHandler) : BulkDataImportHandler :=
  { bi with linking_func := true }

end BulkDataImportHandler

/-- `BulkDataImportHandler._find_or_create_record`. `if unique_column:` takes
the lookup branch only for a truthy (non-empty) column name; a failed
`headers.index` (`ValueError`) becomes `MissingUniqueHeaderException` naming
the column; `vals[...]` out of range is an uncaught `IndexError`;
`model.objects.get` with no match (`DoesNotExist`) is caught and a blank
instance is returned, several matches raise `MultipleObjectsReturned`
(uncaught); a `None` field name would raise a `TypeError` in the `get` call. -/
def find_or_create_record (db : DB) (model : Model) (unique_column : Option String)
    (field_name : Option String) (headers : List String) (vals : List Value) :
    Except Err Instance :=
  match unique_column with
  | some c =>
    if c.isEmpty then .ok ⟨model, Option.none, []⟩
    else
      match listIndex headers c with
      | Option.none => .error (.missingUniqueHeader c)
      | some idx =>
        match vals[idx]? with
        | Option.none => .error .indexError
        | some value =>
          match field_name with
          | Option.none => .error .typeError
          | some f =>
            match dbGet db model f value with
            | [] => .ok ⟨model, Option.none, []⟩
            | [r] => .ok ⟨model, some r.pk, r.attrs⟩
            | _ :: _ :: _ => .error .multipleObjectsReturned
  | Option.none => .ok ⟨model, Option.none, []⟩

/-- `BulkDataImportHandler.process_value`: look the field up in the model
metadata (`FieldDoesNotExist` is uncaught); for a date field try the injected
parser, swallowing any failure into `None`; for a char/text field replace a
falsy value by the empty string; otherwise pass the value through. -/
def process_value (P : Value → Option Value) (inst : Instance)
    (field : String) (value : Value) : Except Err Value :=
  match (inst.model.fields).lookup field with
  | Option.none => .error (.fieldDoesNotExist field)
  | some kind =>
    let value := if kind = .dateField then
        match P value with
        | some d => d
        | Option.none => .null
      else value
    let value := if kind = .charField ∨ kind = .textField then
        if value.truthy then value else .str ""
      else value
    .ok value

/-- The inner loop of `process_row` over `mapping.items()`: for each
`(col, field)` pair, `vals[headers.index(col.lower())]` — a `ValueError`
(column absent) is caught and the pair skipped — then `process_value` and
`setattr`; any other exception propagates. -/
def assign_fields (P : Value → Option Value) (headers : List String)
    (vals : List Value) : List (String × String) → Instance → Except Err Instance
  | [], inst => .ok inst
  | (col, field) :: rest, inst =>
    match listIndex headers (pyLower col) with
    | Option.none => assign_fields P headers vals rest inst
    | some idx =>
      match vals[idx]? with
      | Option.none => .error .indexError
      | some raw =>
        match process_value P inst field raw with
        | .error e => .error e
        | .ok value => assign_fields P headers vals rest (inst.setattr field value)

/-- Output of one `process_row` run: database and event trace as left behind
(also on an uncaught exception — no rollback), and the Python return value or
the exception. -/
structure RowOut where
  db : DB
  events : List Event
  res : Except Err (List Instance)
deriving Repr

/-- The outer loop of `process_row` over `self.mappings`, carried state being
the database, the event trace and `affected_records`: resolve the instance,
assign the mapped fields, append to `affected_records`, call the linking
function when one is registered and more than one record has accumulated,
then save (the saved instance — with its primary key — replaces the appended
one, as both are the same Python object). -/
def rowLoop (bi : BulkDataImportHandler) (headers : List String)
    (vals : List Value) : List ModelMapping → DB → List Event → List Instance → RowOut
  | [], db, evs, recs => ⟨db, evs, .ok recs⟩
  | mm :: rest, db, evs, recs =>
    match find_or_create_record db mm.model mm.unique_column mm.unique_field headers vals with
    | .error e => ⟨db, evs, .error e⟩
    | .ok inst =>
      match assign_fields bi.dateParse headers vals mm.mapping inst with
      | .error e => ⟨db, evs, .error e⟩
      | .ok inst =>
        let recs' := recs ++ [inst]
        let evs' := if bi.linking_func ∧ recs'.length > 1 then evs ++ [.link recs'] else evs
        let (db', saved) := dbSave db inst
        rowLoop bi headers vals rest db' (evs' ++ [.save saved]) (recs'.dropLast ++ [saved])

/-- `process_row(headers, vals)`: run the mapping loop, then (on success)
call every registered per-row function with `(headers, vals)`. -/
def process_row (bi : BulkDataImportHandler) (headers : List String)
    (vals : List Value) (db : DB) : RowOut :=
  let out := rowLoop bi headers vals bi.mappings db [] []
  match out.res with
  | .error e => ⟨out.db, out.events, .error e⟩
  | .ok recs =>
      ⟨out.db, out.events ++ bi.func_mappings.map (fun i => .aux i headers vals), .ok recs⟩

/-- Shape of a Python return value of `process_row`: the code's
`return affected_records` returns the bare list; a `(records, stats)` tuple
is the alternative shape the tests unpack. -/
inductive PyRet where
  | list (recs : List Instance)
  | pair (recs : List Instance) (stats : List String)
deriving DecidableEq, Repr

/-- The Python value returned by `process_row` (line `return affected_records`):
the bare `affected_records` list. -/
def process_row_ret (bi : BulkDataImportHandler) (headers : List String)
    (vals : List Value) (db : DB) : Except Err PyRet :=
  match (process_row bi headers vals db).res with
  | .error e => .error e
  | .ok recs => .ok (.list recs)

/-- `[v.value.lower() for v in data[self.header_row] if v.value]`: keep the
truthy cells, lower-casing each; `.lower()` on a non-string truthy cell is an
uncaught `AttributeError`. -/
def extract_headers : List Value → Except Err (List String)
  | [] => .ok []
  | v :: rest =>
    if v.truthy then
      match v with
      | .str s => (extract_headers rest).map (fun hs => pyLower s :: hs)
      | _ => .error .attributeError
    else extract_headers rest

/-- Output of `process_spreadsheet`: final database, full event trace, and
the returned per-row result lists or the uncaught exception. -/
structure SheetOut where
  db : DB
  events : List Event
  res : Except Err (List (List Instance))
deriving Repr

/-- The row loop of `process_spreadsheet`: for each data row,
`vals[0] == headers[0]` (empty row or empty header list is an uncaught
`IndexError`) detects a repeated header row, which is skipped; otherwise
`process_row` runs and its result list is appended. -/
def sheetLoop (bi : BulkDataImportHandler) (headers : List String) :
    List (List Value) → DB → List Event → List (List Instance) → SheetOut
  | [], db, evs, acc => ⟨db, evs, .ok acc⟩
  | row :: rest, db, evs, acc =>
    match row[0]? with
    | Option.none => ⟨db, evs, .error .indexError⟩
    | some v0 =>
      match headers[0]? with
      | Option.none => ⟨db, evs, .error .indexError⟩
      | some h0 =>
        if v0 = Value.str h0 then
          sheetLoop bi headers rest db evs acc
        else
          match process_row bi headers row db with
          | ⟨db', evs', .error e⟩ => ⟨db', evs ++ evs', .error e⟩
          | ⟨db', evs', .ok recs⟩ => sheetLoop bi headers rest db' (evs ++ evs') (acc ++ [recs])

/-- `process_spreadsheet(spreadsheet)`: the workbook / first sheet access is
the spreadsheet collaborator, so the sheet arrives as a grid of cell values;
extract the headers from `data[self.header_row]` (missing row: `IndexError`),
then loop over `data[self.first_data_row:]`. The optional search-index
rebuild is a fire-and-forget collaborator call with no effect on the result. -/
def process_spreadsheet (bi : BulkDataImportHandler) (data : List (List Value))
    (db : DB) : SheetOut :=
  match data[bi.header_row]? with
  | Option.none => ⟨db, [], .error .indexError⟩
  | some hrow =>
    match extract_headers hrow with
    | .error e => ⟨db, [], .error e⟩
    | .ok headers => sheetLoop bi headers (data.drop bi.first_data_row) db [] []

/-! Concrete fixtures used to instantiate the theorems (mirroring
`bulkimport/tests.py`: a mocked model with pass-through fields, a `Person`-like
model with a unique column). -/

/-- A date parser that fails on every input. -/
def parseNone : Value → Option Value := fun _ => Option.none

/-- The mocked model of `test_process_row_single` (`isinstance` checks are
false on a mock, so its fields are pass-through). -/
def mockModel : Model := ⟨"MyModel", [("one", .otherField), ("two", .otherField)]⟩

/-- Handler of `test_process_row_single`: one mapping `{one: one}`. -/
def singleHandler : BulkDataImportHandler :=
  (mkHandler parseNone).add_mapping mockModel [("one", "one")] Option.none Option.none

/-- A model with a text field and a pass-through unique id field. -/
def personModel : Model := ⟨"Person", [("one", .otherField), ("uid", .otherField)]⟩

/-- Handler whose unique column `UID` is not among the mapped columns. -/
def uidUnmappedHandler : BulkDataImportHandler :=
  (mkHandler parseNone).add_mapping personModel [("one", "one")] (some "UID") (some "uid")

/-- Handler whose unique column `UID` is also mapped onto the unique field. -/
def uidMappedHandler : BulkDataImportHandler :=
  (mkHandler parseNone).add_mapping personModel [("UID", "uid"), ("one", "one")]
    (some "UID") (some "uid")

/-- A two-row spreadsheet with headers `uid`, `one`. -/
def uidGrid : List (List Value) :=
  [[.str "uid", .str "one"], [.str "u1", .str "v1"], [.str "u2", .str "v2"]]

/-- A model with one field of each kind, for instantiating the theorems. -/
def wModel : Model :=
  ⟨"W", [("d", .dateField), ("c", .charField), ("t", .textField), ("x", .otherField)]⟩

/-- A fresh, unsaved instance of `wModel`. -/
def wInst : Instance := ⟨wModel, Option.none, []⟩

/-- Handler of `test_process_row_multi`: two mappings and a linking function. -/
def multiHandler : BulkDataImportHandler :=
  (((mkHandler parseNone).add_mapping mockModel [("one", "one")] Option.none
      Option.none).add_mapping mockModel [("two", "two")] Option.none
      Option.none).add_linking_function

/-- Handler with a plain mapping followed by one whose unique column is
missing from the spreadsheet (as in `test_missing_unique_field`). -/
def preMissHandler : BulkDataImportHandler :=
  ((mkHandler parseNone).add_mapping mockModel [("one", "one")] Option.none
      Option.none).add_mapping personModel [("one", "one")] (some "PersonID") (some "uid")

/-- Two databases agree on length and pointwise on primary key, model name
and the value of field `f`: the part of the state a unique-field lookup on
`f` can observe. -/
def fEquiv (f : String) (db db' : DB) : Prop :=
  List.Forall₂ (fun q q' => q.pk = q'.pk ∧ q.modelName = q'.modelName
    ∧ alookup f q.attrs = alookup f q'.attrs) db db'

/-! # Helper lemmas -/

/-- `assign_fields` only assigns attributes: the primary key and the model
class of the instance are untouched. -/
theorem assign_fields_pk (P : Value → Option Value) (headers : List String)
    (vals : List Value) (l : List (String × String)) : ∀ (inst inst' : Instance),
    assign_fields P headers vals l inst = .ok inst' →
    inst'.pk = inst.pk ∧ inst'.model = inst.model := by
  induction l with
  | nil =>
      intro inst inst' h
      cases h
      exact ⟨rfl, rfl⟩
  | cons p rest ih =>
      intro inst inst' h
      obtain ⟨col, field⟩ := p
      rw [assign_fields] at h
      split at h
      · exact ih inst inst' h
      · split at h
        · exact absurd h (by simp)
        · split at h
          · exact absurd h (by simp)
          · obtain ⟨hpk, hm⟩ := ih _ inst' h
            exact ⟨hpk, hm⟩

/-- Auxiliary per-row callback events are never saves. -/
theorem aux_events_no_save (l : List Nat) (headers : List String) (vals : List Value) :
    (l.map (fun i => Event.aux i headers vals)).filter Event.isSave = [] := by
  induction l with
  | nil => rfl
  | cons a t ih => simp [Event.isSave, ih]

/-- Auxiliary per-row callback events are never linking calls. -/
theorem aux_events_no_link (l : List Nat) (headers : List String) (vals : List Value) :
    (l.map (fun i => Event.aux i headers vals)).filter Event.isLink = [] := by
  induction l with
  | nil => rfl
  | cons a t ih => simp [Event.isLink, ih]

/-- A linking event survives a link filter. -/
theorem filter_link_singleton (args : List Instance) :
    ([Event.link args].filter Event.isLink) = [Event.link args] := rfl

/-- A save event is dropped by a link filter. -/
theorem filter_save_singleton (i : Instance) :
    ([Event.save i].filter Event.isLink) = ([] : List Event) := rfl

/-- One step of the mapping loop of `process_row`, on successful resolution
and field assignment: append, conditional linking call, save. -/
theorem rowLoop_step (bi : BulkDataImportHandler) (headers : List String)
    (vals : List Value) (mm : ModelMapping) (ms : List ModelMapping) (db : DB)
    (evs : List Event) (recs : List Instance) (inst inst' : Instance)
    (hfc : find_or_create_record db mm.model mm.unique_column mm.unique_field
      headers vals = .ok inst)
    (hasg : assign_fields bi.dateParse headers vals mm.mapping inst = .ok inst') :
    rowLoop bi headers vals (mm :: ms) db evs recs
      = rowLoop bi headers vals ms (dbSave db inst').1
          ((if bi.linking_func ∧ (recs ++ [inst']).length > 1
              then evs ++ [.link (recs ++ [inst'])] else evs)
            ++ [.save (dbSave db inst').2])
          (recs ++ [(dbSave db inst').2]) := by
  rw [rowLoop, hfc]
  simp only [hasg, List.dropLast_concat]

/-- On success, every mapping contributes exactly one record to the row's
result list. -/
theorem rowLoop_length (bi : BulkDataImportHandler) (headers : List String)
    (vals : List Value) : ∀ (ms : List ModelMapping) (db : DB) (evs : List Event)
    (recs recs' : List Instance),
    (rowLoop bi headers vals ms db evs recs).res = .ok recs' →
    recs'.length = recs.length + ms.length := by
  intro ms
  induction ms with
  | nil =>
      intro db evs recs recs' h
      cases h
      simp
  | cons mm ms ih =>
      intro db evs recs recs' h
      rcases hfc : find_or_create_record db mm.model mm.unique_column mm.unique_field
          headers vals with e | inst
      · rw [rowLoop, hfc] at h
        cases h
      · rcases hasg : assign_fields bi.dateParse headers vals mm.mapping inst with e | inst'
        · rw [rowLoop, hfc] at h
          simp only [hasg] at h
          cases h
        · rw [rowLoop_step bi headers vals mm ms db evs recs inst inst' hfc hasg] at h
          have hlen := ih _ _ _ recs' h
          simp only [List.length_append, List.length_cons, List.length_nil] at hlen ⊢
          omega

/-- Link events added by the mapping loop: one per processed mapping, except
that the first mapping of a row starting from an empty result list adds
none. -/
theorem rowLoop_link_count (bi : BulkDataImportHandler) (headers : List String)
    (vals : List Value) (hlf : bi.linking_func = true) :
    ∀ (ms : List ModelMapping) (db : DB) (evs : List Event) (recs recs' : List Instance),
    (rowLoop bi headers vals ms db evs recs).res = .ok recs' →
    ((rowLoop bi headers vals ms db evs recs).events.filter Event.isLink).length
      = (evs.filter Event.isLink).length + min (recs.length + ms.length - 1) ms.length := by
  intro ms
  induction ms with
  | nil =>
      intro db evs recs recs' h
      simp [rowLoop]
  | cons mm ms ih =>
      intro db evs recs recs' h
      rcases hfc : find_or_create_record db mm.model mm.unique_column mm.unique_field
          headers vals with e | inst
      · rw [rowLoop, hfc] at h
        cases h
      · rcases hasg : assign_fields bi.dateParse headers vals mm.mapping inst with e | inst'
        · rw [rowLoop, hfc] at h
          simp only [hasg] at h
          cases h
        · rw [rowLoop_step bi headers vals mm ms db evs recs inst inst' hfc hasg] at h ⊢
          have hcond : (bi.linking_func = true ∧ ((recs ++ [inst']).length > 1))
              ↔ 0 < recs.length := by
            simp only [hlf, true_and, List.length_append, List.length_cons, List.length_nil]
            omega
          by_cases hr : 0 < recs.length
          · rw [if_pos (hcond.mpr hr)] at h ⊢
            have hc := ih _ _ _ recs' h
            rw [hc, List.filter_append, List.filter_append, filter_link_singleton,
              filter_save_singleton]
            simp only [List.length_append, List.length_cons, List.length_nil]
            omega
          · rw [if_neg (fun hcc => hr (hcond.mp hcc))] at h ⊢
            have hc := ih _ _ _ recs' h
            rw [hc, List.filter_append, filter_save_singleton]
            simp only [List.length_append, List.length_cons, List.length_nil]
            omega

/-- The result of `process_row` is the result of its mapping loop. -/
theorem process_row_res (bi : BulkDataImportHandler) (headers : List String)
    (vals : List Value) (db : DB) :
    (process_row bi headers vals db).res
      = (rowLoop bi headers vals bi.mappings db [] []).res := by
  rw [process_row]
  rcases rowLoop bi headers vals bi.mappings db [] [] with ⟨db1, evs1, e | recs⟩ <;> rfl

/-- On success, the events of `process_row` are the mapping-loop events
followed by the per-row callback events. -/
theorem process_row_events_ok (bi : BulkDataImportHandler) (headers : List String)
    (vals : List Value) (db : DB) (recs' : List Instance)
    (h : (rowLoop bi headers vals bi.mappings db [] []).res = .ok recs') :
    (process_row bi headers vals db).events
      = (rowLoop bi headers vals bi.mappings db [] []).events
        ++ bi.func_mappings.map (fun i => .aux i headers vals) := by
  rw [process_row]
  rcases hq : rowLoop bi headers vals bi.mappings db [] [] with ⟨db1, evs1, e | recs⟩
  · rw [hq] at h
    cases h
  · rfl

/-- The mapping loop over an appended list, when the first part succeeds,
continues the second part from the first part's state. -/
theorem rowLoop_append (bi : BulkDataImportHandler) (headers : List String)
    (vals : List Value) : ∀ (l1 l2 : List ModelMapping) (db : DB) (evs : List Event)
    (recs recs1 : List Instance),
    (rowLoop bi headers vals l1 db evs recs).res = .ok recs1 →
    rowLoop bi headers vals (l1 ++ l2) db evs recs
      = rowLoop bi headers vals l2 (rowLoop bi headers vals l1 db evs recs).db
          (rowLoop bi headers vals l1 db evs recs).events recs1 := by
  intro l1
  induction l1 with
  | nil =>
      intro l2 db evs recs recs1 h
      cases h
      rfl
  | cons mm l1' ih =>
      intro l2 db evs recs recs1 h
      rcases hfc : find_or_create_record db mm.model mm.unique_column mm.unique_field
          headers vals with e | inst
      · rw [rowLoop, hfc] at h
        cases h
      · rcases hasg : assign_fields bi.dateParse headers vals mm.mapping inst with e | inst'
        · rw [rowLoop, hfc] at h
          simp only [hasg] at h
          cases h
        · rw [rowLoop_step bi headers vals mm l1' db evs recs inst inst' hfc hasg] at h
          rw [List.cons_append,
            rowLoop_step bi headers vals mm (l1' ++ l2) db evs recs inst inst' hfc hasg,
            rowLoop_step bi headers vals mm l1' db evs recs inst inst' hfc hasg]
          exact ih l2 _ _ _ recs1 h

/-- The sheet loop over an appended row list, when the first part succeeds,
continues the second part from the first part's state. -/
theorem sheetLoop_append (bi : BulkDataImportHandler) (headers : List String) :
    ∀ (r1 r2 : List (List Value)) (db : DB) (evs : List Event)
    (acc acc1 : List (List Instance)),
    (sheetLoop bi headers r1 db evs acc).res = .ok acc1 →
    sheetLoop bi headers (r1 ++ r2) db evs acc
      = sheetLoop bi headers r2 (sheetLoop bi headers r1 db evs acc).db
          (sheetLoop bi headers r1 db evs acc).events acc1 := by
  intro r1
  induction r1 with
  | nil =>
      intro r2 db evs acc acc1 h
      cases h
      rfl
  | cons r r1' ih =>
      intro r2 db evs acc acc1 h
      rcases h0 : r[0]? with _ | v0
      · simp only [List.cons_append, sheetLoop] at h ⊢
        rw [h0] at h
        cases h
      · rcases hh : headers[0]? with _ | h0v
        · simp only [List.cons_append, sheetLoop] at h ⊢
          rw [h0, hh] at h
          cases h
        · by_cases hv : v0 = Value.str h0v
          · have hstep : ∀ (rs : List (List Value)) (db : DB) (evs : List Event)
                (acc : List (List Instance)),
                sheetLoop bi headers (r :: rs) db evs acc
                  = sheetLoop bi headers rs db evs acc := by
              intro rs db evs acc
              simp only [sheetLoop, h0, hh]
              rw [if_pos hv]
            rw [hstep] at h
            rw [List.cons_append, hstep, hstep]
            exact ih r2 _ _ _ acc1 h
          · have hstep : ∀ (rs : List (List Value)) (db : DB) (evs : List Event)
                (acc : List (List Instance)),
                sheetLoop bi headers (r :: rs) db evs acc
                  = match process_row bi headers r db with
                    | ⟨db', evs', .error e⟩ => ⟨db', evs ++ evs', .error e⟩
                    | ⟨db', evs', .ok recs⟩ =>
                        sheetLoop bi headers rs db' (evs ++ evs') (acc ++ [recs]) := by
              intro rs db evs acc
              simp only [sheetLoop, h0, hh]
              rw [if_neg hv]
            rw [hstep] at h
            rw [List.cons_append, hstep, hstep]
            rcases hpr : process_row bi headers r db with ⟨db', evs', res⟩
            rw [hpr] at h
            rcases res with e | recs
            · cases h
            · exact ih r2 _ _ _ acc1 h

/-- A truthy unique column absent from the headers makes resolution fail with
`MissingUniqueHeaderException` naming the column. -/
theorem find_or_create_missing (db : DB) (model : Model) (c : String)
    (uf : Option String) (headers : List String) (vals : List Value)
    (hc : c.isEmpty = false) (habs : listIndex headers c = Option.none) :
    find_or_create_record db model (some c) uf headers vals
      = .error (.missingUniqueHeader c) := by
  simp [find_or_create_record, hc, habs]

/-- `list.index` on a one-element list of its own element. -/
theorem listIndex_single (x : String) : listIndex [x] x = some 0 := by
  simp [listIndex, listIndex.go]

/-- `dbGet` distributes over database append. -/
theorem dbGet_append (db1 db2 : DB) (M : Model) (f : String) (v : Value) :
    dbGet (db1 ++ db2) M f v = dbGet db1 M f v ++ dbGet db2 M f v := by
  simp [dbGet]

/-- `dbGet` on a cons. -/
theorem dbGet_cons (q : Record) (l : DB) (M : Model) (f : String) (v : Value) :
    dbGet (q :: l) M f v
      = if q.modelName = M.name ∧ alookup f q.attrs = some v
        then q :: dbGet l M f v else dbGet l M f v := by
  by_cases h : q.modelName = M.name ∧ alookup f q.attrs = some v <;>
    simp [dbGet, List.filter_cons, h]

/-- `dbGet` on a single record of the model whose field `f` reads `v`. -/
theorem dbGet_singleton_lookup (M : Model) (f : String) (attrs : List (String × Value))
    (v w : Value) (p : Nat) (ha : alookup f attrs = some v) :
    dbGet [⟨p, M.name, attrs⟩] M f w
      = if v = w then [⟨p, M.name, attrs⟩] else [] := by
  by_cases hvw : v = w <;> simp [dbGet, ha, hvw]

/-- An index returned by the `list.index` recursion is within bounds. -/
theorem listIndex_go_lt (x : String) : ∀ (l : List String) (i : Nat),
    listIndex.go x l = some i → i < l.length := by
  intro l
  induction l with
  | nil =>
      intro i h
      cases h
  | cons a t ih =>
      intro i h
      simp only [listIndex.go] at h
      by_cases hax : a = x
      · rw [if_pos hax] at h
        cases h
        simp
      · rw [if_neg hax] at h
        rcases hg : listIndex.go x t with _ | j
        · rw [hg] at h
          cases h
        · rw [hg] at h
          cases h
          have := ih j hg
          simp only [List.length_cons]
          omega

/-- An index returned by `list.index` is within bounds. -/
theorem listIndex_lt_length (l : List String) (x : String) (i : Nat)
    (h : listIndex l x = some i) : i < l.length :=
  listIndex_go_lt x l i h

/-- `process_value` never fails on a declared field (date-parse failures are
swallowed by design). -/
theorem process_value_ok (P : Value → Option Value) (inst : Instance) (field : String)
    (value : Value) (k : FieldKind)
    (hk : (inst.model.fields).lookup field = some k) :
    ∃ w, process_value P inst field value = .ok w := by
  rw [process_value, hk]
  exact ⟨_, rfl⟩

/-- One assignment step for a mapped pair whose column is absent. -/
theorem assign_fields_cons_absent (P : Value → Option Value) (headers : List String)
    (r : List Value) (c' f' : String) (rest : List (String × String)) (inst : Instance)
    (hidx : listIndex headers (pyLower c') = Option.none) :
    assign_fields P headers r ((c', f') :: rest) inst
      = assign_fields P headers r rest inst := by
  rw [assign_fields, hidx]

/-- One assignment step for a mapped pair whose column is present. -/
theorem assign_fields_cons_present (P : Value → Option Value) (headers : List String)
    (r : List Value) (c' f' : String) (rest : List (String × String)) (inst : Instance)
    (idx : Nat) (raw w : Value)
    (hidx : listIndex headers (pyLower c') = some idx)
    (hraw : r[idx]? = some raw)
    (hpv : process_value P inst f' raw = .ok w) :
    assign_fields P headers r ((c', f') :: rest) inst
      = assign_fields P headers r rest (inst.setattr f' w) := by
  rw [assign_fields]
  simp only [hidx, hraw, hpv]

/-- The field-assignment loop succeeds on any instance of a model that
declares every mapped field, over a row at least as long as the headers,
preserving primary key and model. -/
theorem assign_fields_total (P : Value → Option Value) (headers : List String)
    (M : Model) : ∀ (l : List (String × String)) (r : List Value) (inst : Instance),
    inst.model = M →
    (∀ p ∈ l, (M.fields.lookup p.2).isSome = true) →
    headers.length ≤ r.length →
    ∃ inst', assign_fields P headers r l inst = .ok inst'
      ∧ inst'.pk = inst.pk ∧ inst'.model = M := by
  intro l
  induction l with
  | nil =>
      intro r inst hm _ _
      exact ⟨inst, rfl, rfl, hm⟩
  | cons p rest ih =>
      intro r inst hm hf hlen
      obtain ⟨c', f'⟩ := p
      rcases hidx : listIndex headers (pyLower c') with _ | idx
      · obtain ⟨inst', h1, h2, h3⟩ := ih r inst hm
          (fun q hq => hf q (List.mem_cons_of_mem _ hq)) hlen
        refine ⟨inst', ?_, h2, h3⟩
        rw [assign_fields_cons_absent P headers r c' f' rest inst hidx]
        exact h1
      · have hlt : idx < r.length :=
          lt_of_lt_of_le (listIndex_lt_length headers (pyLower c') idx hidx) hlen
        have hw : r[idx]? = some r[idx] := List.getElem?_eq_getElem hlt
        have hfs := hf (c', f') (List.mem_cons_self _ _)
        rcases hk : M.fields.lookup f' with _ | k
        · rw [hk] at hfs
          cases hfs
        · obtain ⟨w, hpv⟩ := process_value_ok P inst f' r[idx] k (by rw [hm]; exact hk)
          obtain ⟨inst', h1, h2, h3⟩ := ih r (inst.setattr f' w)
              (by simp [Instance.setattr, hm])
              (fun q hq => hf q (List.mem_cons_of_mem _ hq)) hlen
          refine ⟨inst', ?_, by rw [h2]; rfl, h3⟩
          rw [assign_fields_cons_present P headers r c' f' rest inst idx r[idx] w hidx hw hpv]
          exact h1

/-- A field whose every assigning pair has an absent column keeps its value
through the assignment loop. -/
theorem assign_fields_attr_untouched (P : Value → Option Value) (headers : List String) :
    ∀ (l : List (String × String)) (r : List Value) (f : String) (inst inst' : Instance),
    (∀ p ∈ l, p.2 = f → listIndex headers (pyLower p.1) = Option.none) →
    assign_fields P headers r l inst = .ok inst' →
    alookup f inst'.attrs = alookup f inst.attrs := by
  intro l
  induction l with
  | nil =>
      intro r f inst inst' _ h
      cases h
      rfl
  | cons p rest ih =>
      obtain ⟨c', f'⟩ := p
      intro r f inst inst' hab h
      rw [assign_fields] at h
      split at h
      · exact ih r f inst inst' (fun q hq hf => hab q (List.mem_cons_of_mem _ hq) hf) h
      · rename_i idx hidx
        have hq : f' ≠ f := by
          intro hpf
          have habs := hab (c', f') (List.mem_cons_self _ rest) hpf
          rw [habs] at hidx
          cases hidx
        split at h
        · cases h
        · split at h
          · cases h
          · rename_i raw hraw value hval
            have hrec := ih r f (inst.setattr f' value) inst'
                (fun q hqq hf => hab q (List.mem_cons_of_mem _ hqq) hf) h
            rw [hrec]
            simp [Instance.setattr, alookup, Ne.symm hq]

/-- The assignment loop over an appended pair list runs the two parts in
sequence. -/
theorem assign_fields_append (P : Value → Option Value) (headers : List String)
    (r : List Value) : ∀ (l1 l2 : List (String × String)) (inst : Instance),
    assign_fields P headers r (l1 ++ l2) inst
      = match assign_fields P headers r l1 inst with
        | .error e => .error e
        | .ok inst1 => assign_fields P headers r l2 inst1 := by
  intro l1
  induction l1 with
  | nil =>
      intro l2 inst
      rfl
  | cons p l1' ih =>
      obtain ⟨c', f'⟩ := p
      intro l2 inst
      simp only [List.cons_append, assign_fields]
      split
      · exact ih l2 inst
      · split
        · rfl
        · split
          · rfl
          · exact ih l2 _

/-- Running the whole mapping — the unique pair `(cU, f)` somewhere in the
middle, no later pair reassigning `f` from a present column — on an instance
of the model succeeds and stores the unique cell value on field `f`. -/
theorem assign_fields_store_unique (P : Value → Option Value) (headers : List String)
    (M : Model) (f cU : String) (l1 l2 : List (String × String)) (iu : Nat)
    (hidxU : listIndex headers (pyLower cU) = some iu)
    (hkind : M.fields.lookup f = some .otherField)
    (hfields : ∀ p ∈ l1 ++ (cU, f) :: l2, (M.fields.lookup p.2).isSome = true)
    (hl2 : ∀ p ∈ l2, p.2 = f → listIndex headers (pyLower p.1) = Option.none)
    (r : List Value) (v : Value)
    (hlenr : headers.length ≤ r.length)
    (hv : r[iu]? = some v)
    (inst : Instance) (hmodel : inst.model = M) :
    ∃ inst', assign_fields P headers r (l1 ++ (cU, f) :: l2) inst = .ok inst'
      ∧ inst'.pk = inst.pk ∧ inst'.model = M ∧ alookup f inst'.attrs = some v := by
  obtain ⟨inst1, h1, hpk1, hm1⟩ := assign_fields_total P headers M l1 r inst hmodel
      (fun p hp => hfields p (List.mem_append.mpr (Or.inl hp))) hlenr
  have hpv : process_value P inst1 f v = .ok v := by
    have hk1 : (inst1.model.fields).lookup f = some FieldKind.otherField := by
      rw [hm1]
      exact hkind
    simp [process_value, hk1]
  have hstep := assign_fields_cons_present P headers r cU f l2 inst1 iu v v hidxU hv hpv
  obtain ⟨inst', h2, hpk2, hm2⟩ := assign_fields_total P headers M l2 r (inst1.setattr f v)
      (by simp [Instance.setattr, hm1])
      (fun p hp => hfields p (List.mem_append.mpr (Or.inr (List.mem_cons_of_mem _ hp))))
      hlenr
  refine ⟨inst', ?_, ?_, hm2, ?_⟩
  · rw [assign_fields_append, h1]
    show assign_fields P headers r ((cU, f) :: l2) inst1 = .ok inst'
    rw [hstep]
    exact h2
  · have hps := hpk2
    simp only [Instance.setattr] at hps
    exact hps.trans hpk1
  · have hun := assign_fields_attr_untouched P headers l2 r f (inst1.setattr f v) inst'
        hl2 h2
    rw [hun]
    simp [Instance.setattr, alookup]

/-- `process_row` for a single-mapping handler whose mapping contains the
unique column, mapped onto the unique field: with no existing match a fresh
record storing the unique value is appended; with exactly one match that
record is updated in place, its `f` value re-stored. -/
theorem process_row_unique_mapped (bi : BulkDataImportHandler) (M : Model)
    (headers : List String) (f cu cU : String) (l1 l2 : List (String × String))
    (iu : Nat)
    (hbi : bi.mappings = [⟨M, l1 ++ (cU, f) :: l2, some cu, some f⟩])
    (hcu : cu.isEmpty = false)
    (hidxu : listIndex headers cu = some iu)
    (hidxU : listIndex headers (pyLower cU) = some iu)
    (hkind : M.fields.lookup f = some .otherField)
    (hfields : ∀ p ∈ l1 ++ (cU, f) :: l2, (M.fields.lookup p.2).isSome = true)
    (hl2 : ∀ p ∈ l2, p.2 = f → listIndex headers (pyLower p.1) = Option.none)
    (db : DB) (r : List Value) (v : Value)
    (hlenr : headers.length ≤ r.length)
    (hv : r[iu]? = some v) :
    (dbGet db M f v = [] →
      ∃ attrs, alookup f attrs = some v
        ∧ process_row bi headers r db
          = ⟨db ++ [⟨db.length, M.name, attrs⟩],
             Event.save ⟨M, some db.length, attrs⟩
               :: bi.func_mappings.map (fun i => .aux i headers r),
             .ok [⟨M, some db.length, attrs⟩]⟩)
    ∧ (∀ r0 : Record, dbGet db M f v = [r0] →
      ∃ attrs, alookup f attrs = some v
        ∧ process_row bi headers r db
          = ⟨db.map (fun q => if q.pk = r0.pk then { q with attrs := attrs } else q),
             Event.save ⟨M, some r0.pk, attrs⟩
               :: bi.func_mappings.map (fun i => .aux i headers r),
             .ok [⟨M, some r0.pk, attrs⟩]⟩) := by
  constructor
  · intro hget
    obtain ⟨inst', hasg, hpk', hm', ha'⟩ :=
      assign_fields_store_unique bi.dateParse headers M f cU l1 l2 iu hidxU hkind
        hfields hl2 r v hlenr hv ⟨M, Option.none, []⟩ rfl
    obtain ⟨mI, pkI, aI⟩ := inst'
    dsimp only at hpk' hm' ha'
    subst hpk'
    subst hm'
    refine ⟨aI, ha', ?_⟩
    have hfc : find_or_create_record db mI (some cu) (some f) headers r
        = .ok ⟨mI, Option.none, []⟩ := by
      simp [find_or_create_record, hcu, hidxu, hv, hget]
    rw [process_row, hbi, rowLoop]
    simp only [hfc, hasg, rowLoop, dbSave, List.nil_append, List.length_cons,
      List.length_nil, gt_iff_lt, Nat.lt_irrefl, and_false, if_false,
      List.dropLast_single]
    rfl
  · intro r0 hget
    obtain ⟨inst', hasg, hpk', hm', ha'⟩ :=
      assign_fields_store_unique bi.dateParse headers M f cU l1 l2 iu hidxU hkind
        hfields hl2 r v hlenr hv ⟨M, some r0.pk, r0.attrs⟩ rfl
    obtain ⟨mI, pkI, aI⟩ := inst'
    dsimp only at hpk' hm' ha'
    subst hpk'
    subst hm'
    refine ⟨aI, ha', ?_⟩
    have hfc : find_or_create_record db mI (some cu) (some f) headers r
        = .ok ⟨mI, some r0.pk, r0.attrs⟩ := by
      simp [find_or_create_record, hcu, hidxu, hv, hget]
    rw [process_row, hbi, rowLoop]
    simp only [hfc, hasg, rowLoop, dbSave, List.nil_append, List.length_cons,
      List.length_nil, gt_iff_lt, Nat.lt_irrefl, and_false, if_false,
      List.dropLast_single]
    rfl

/-- `fEquiv` is reflexive. -/
theorem fEquiv_refl (f : String) : ∀ db : DB, fEquiv f db db := by
  intro db
  induction db with
  | nil => exact List.Forall₂.nil
  | cons q l ih => exact List.Forall₂.cons ⟨rfl, rfl, rfl⟩ ih

/-- `fEquiv` databases give unique-field lookups with the same primary keys. -/
theorem fEquiv_dbGet (f : String) (db db' : DB) (h : fEquiv f db db')
    (M : Model) (v : Value) :
    (dbGet db M f v).map Record.pk = (dbGet db' M f v).map Record.pk := by
  induction h with
  | nil => rfl
  | cons hqq htail ih =>
      rename_i q q' l l'
      obtain ⟨hp, hm, ha⟩ := hqq
      rw [dbGet_cons, dbGet_cons, hm, ha]
      by_cases hcond : q'.modelName = M.name ∧ alookup f q'.attrs = some v
      · rw [if_pos hcond, if_pos hcond]
        simp [hp, ih]
      · rw [if_neg hcond, if_neg hcond]
        exact ih

/-- `fEquiv` databases have the same primary keys. -/
theorem fEquiv_pks (f : String) : ∀ (db db' : DB), fEquiv f db db' →
    db.map Record.pk = db'.map Record.pk := by
  intro db db' h
  induction h with
  | nil => rfl
  | cons hqq htail ih => simp [hqq.1, ih]

/-- A pointwise record transformation preserving primary key, model name and
field `f` preserves `fEquiv`. -/
theorem fEquiv_map (f : String) (db1 db' : DB) (u : Record → Record)
    (h : fEquiv f db1 db')
    (hu : ∀ q ∈ db', (u q).pk = q.pk ∧ (u q).modelName = q.modelName
      ∧ alookup f (u q).attrs = alookup f q.attrs) :
    fEquiv f db1 (db'.map u) := by
  induction h with
  | nil => exact List.Forall₂.nil
  | cons hqq htail ih =>
      rename_i q q' l l'
      refine List.Forall₂.cons ?_ (ih fun p hp => hu p (List.mem_cons_of_mem _ hp))
      obtain ⟨h1, h2, h3⟩ := hu q' (List.mem_cons_self _ _)
      obtain ⟨g1, g2, g3⟩ := hqq
      exact ⟨g1.trans h1.symm, g2.trans h2.symm, g3.trans h3.symm⟩

/-- A database whose records sit at their own primary keys has distinct
primary keys. -/
theorem pks_positions_nodup (db : DB)
    (h : ∀ (i : Nat) (q : Record), db[i]? = some q → q.pk = i) :
    (db.map Record.pk).Nodup := by
  have hr : db.map Record.pk = List.range db.length := by
    apply List.ext_getElem?
    intro i
    rw [List.getElem?_map]
    by_cases hi : i < db.length
    · have hg : db[i]? = some db[i] := List.getElem?_eq_getElem hi
      rw [hg, List.getElem?_range hi]
      simp [h i _ hg]
    · rw [List.getElem?_eq_none (le_of_not_lt hi), List.getElem?_eq_none]
      · rfl
      · simpa using le_of_not_lt hi
  rw [hr]
  exact List.nodup_range _

/-- First import over a handler with one mapping containing the unique
column mapped onto the unique field: with unseen, pairwise-distinct unique
values and rows at least as long as the headers, every row inserts exactly
one record at its own primary-key position, and afterwards every row's
unique value matches exactly one record. -/
theorem first_pass (bi : BulkDataImportHandler) (M : Model) (headers : List String)
    (f cu cU : String) (l1 l2 : List (String × String)) (iu : Nat) (h0v : String)
    (hbi : bi.mappings = [⟨M, l1 ++ (cU, f) :: l2, some cu, some f⟩])
    (hcu : cu.isEmpty = false)
    (hidxu : listIndex headers cu = some iu)
    (hidxU : listIndex headers (pyLower cU) = some iu)
    (hkind : M.fields.lookup f = some .otherField)
    (hfields : ∀ p ∈ l1 ++ (cU, f) :: l2, (M.fields.lookup p.2).isSome = true)
    (hl2 : ∀ p ∈ l2, p.2 = f → listIndex headers (pyLower p.1) = Option.none)
    (hh0 : headers[0]? = some h0v) :
    ∀ (rows : List (List Value)) (db : DB) (evs : List Event)
      (acc : List (List Instance)),
    (∀ (i : Nat) (q : Record), db[i]? = some q → q.pk = i) →
    (∀ r ∈ rows, ∀ v, r[iu]? = some v → dbGet db M f v = []) →
    (∀ r ∈ rows, headers.length ≤ r.length) →
    (∀ r ∈ rows, r[0]? ≠ some (Value.str h0v)) →
    (rows.map (fun r => r[iu]?)).Nodup →
    (∃ accf, (sheetLoop bi headers rows db evs acc).res = .ok accf)
    ∧ (sheetLoop bi headers rows db evs acc).db.length = db.length + rows.length
    ∧ (∀ (i : Nat) (q : Record),
        (sheetLoop bi headers rows db evs acc).db[i]? = some q → q.pk = i)
    ∧ (∀ r ∈ rows, ∀ v, r[iu]? = some v →
        ∃ p, (dbGet (sheetLoop bi headers rows db evs acc).db M f v).map Record.pk
          = [p])
    ∧ (∀ v : Value, (∀ r ∈ rows, r[iu]? ≠ some v) →
        dbGet (sheetLoop bi headers rows db evs acc).db M f v = dbGet db M f v) := by
  intro rows
  induction rows with
  | nil =>
      intro db evs acc hpk hfresh hlen hnh hdist
      exact ⟨⟨acc, rfl⟩, by simp [sheetLoop], hpk, by simp, fun v _ => rfl⟩
  | cons r rest ih =>
      intro db evs acc hpk hfresh hlen hnh hdist
      have hlenr : headers.length ≤ r.length := hlen r (List.mem_cons_self r rest)
      have hiu : iu < headers.length := listIndex_lt_length headers cu iu hidxu
      have h0lt : 0 < r.length :=
        lt_of_lt_of_le (Nat.lt_of_le_of_lt (Nat.zero_le iu) hiu) hlenr
      have h0 : r[0]? = some r[0] := List.getElem?_eq_getElem h0lt
      have hvlt : iu < r.length := lt_of_lt_of_le hiu hlenr
      have hv : r[iu]? = some r[iu] := List.getElem?_eq_getElem hvlt
      have hne0 : r[0] ≠ Value.str h0v := by
        intro heq
        exact hnh r (List.mem_cons_self r rest) (by rw [h0, heq])
      have hget : dbGet db M f r[iu] = [] := hfresh r (List.mem_cons_self r rest) _ hv
      obtain ⟨attrs, hal, hpr⟩ :=
        (process_row_unique_mapped bi M headers f cu cU l1 l2 iu hbi hcu hidxu hidxU
          hkind hfields hl2 db r r[iu] hlenr hv).1 hget
      have hstep : sheetLoop bi headers (r :: rest) db evs acc
          = sheetLoop bi headers rest (db ++ [⟨db.length, M.name, attrs⟩])
              (evs ++ (Event.save ⟨M, some db.length, attrs⟩
                :: bi.func_mappings.map (fun i => .aux i headers r)))
              (acc ++ [[⟨M, some db.length, attrs⟩]]) := by
        simp only [sheetLoop, h0, hh0]
        rw [if_neg hne0, hpr]
      rw [hstep]
      have hdist2 := hdist
      simp only [List.map_cons, List.nodup_cons] at hdist2
      have hnin : ∀ x ∈ rest, x[iu]? ≠ some r[iu] := by
        intro x hx hxv
        apply hdist2.1
        rw [hv, ← hxv]
        exact List.mem_map_of_mem (fun q => q[iu]?) hx
      have hpk' : ∀ (i : Nat) (q : Record),
          (db ++ [⟨db.length, M.name, attrs⟩])[i]? = some q → q.pk = i := by
        intro i q hq
        rw [List.getElem?_append] at hq
        by_cases hi : i < db.length
        · rw [if_pos hi] at hq
          exact hpk i q hq
        · rw [if_neg hi] at hq
          rcases hj : i - db.length with _ | j
          · rw [hj] at hq
            cases hq
            show db.length = i
            omega
          · rw [hj] at hq
            cases hq
      have hfresh' : ∀ r' ∈ rest, ∀ w, r'[iu]? = some w →
          dbGet (db ++ [⟨db.length, M.name, attrs⟩]) M f w = [] := by
        intro r' hr' w hw
        have h1 : dbGet db M f w = [] := hfresh r' (List.mem_cons_of_mem _ hr') w hw
        have hwv : r[iu] ≠ w := by
          intro heq
          subst heq
          exact hnin r' hr' hw
        rw [dbGet_append, h1,
          dbGet_singleton_lookup M f attrs r[iu] w db.length hal, if_neg hwv]
        rfl
      obtain ⟨⟨accf, hres⟩, hlen2, hpk2, hsing, hpres⟩ :=
        ih (db ++ [⟨db.length, M.name, attrs⟩])
          (evs ++ (Event.save ⟨M, some db.length, attrs⟩
            :: bi.func_mappings.map (fun i => .aux i headers r)))
          (acc ++ [[⟨M, some db.length, attrs⟩]]) hpk' hfresh'
          (fun r' hr' => hlen r' (List.mem_cons_of_mem _ hr'))
          (fun r' hr' => hnh r' (List.mem_cons_of_mem _ hr')) hdist2.2
      refine ⟨⟨accf, hres⟩, ?_, hpk2, ?_, ?_⟩
      · simp only [List.length_append, List.length_cons, List.length_nil] at hlen2 ⊢
        omega
      · intro r'' hr'' w hw
        rcases List.mem_cons.mp hr'' with rfl | hmem
        · rw [hv] at hw
          obtain rfl : w = r''[iu] := (Option.some.inj hw).symm
          rw [hpres _ hnin, dbGet_append, hget,
            dbGet_singleton_lookup M f attrs _ _ db.length hal, if_pos rfl]
          exact ⟨db.length, rfl⟩
        · exact hsing r'' hmem w hw
      · intro w hwall
        have hwv : r[iu] ≠ w := by
          intro heq
          exact hwall r (List.mem_cons_self r rest) (heq ▸ hv)
        have hrest : ∀ r' ∈ rest, r'[iu]? ≠ some w :=
          fun r' hr' => hwall r' (List.mem_cons_of_mem _ hr')
        rw [hpres w hrest, dbGet_append,
          dbGet_singleton_lookup M f attrs r[iu] w db.length hal, if_neg hwv]
        exact List.append_nil _

/-- Second import over the same rows against any database `fEquiv` to the
state `db1` left by the first import: every row fetches the single matching
record and updates it in place, so the database stays `fEquiv` to `db1` —
in particular its length never changes. -/
theorem second_pass (bi : BulkDataImportHandler) (M : Model) (headers : List String)
    (f cu cU : String) (l1 l2 : List (String × String)) (iu : Nat) (h0v : String)
    (hbi : bi.mappings = [⟨M, l1 ++ (cU, f) :: l2, some cu, some f⟩])
    (hcu : cu.isEmpty = false)
    (hidxu : listIndex headers cu = some iu)
    (hidxU : listIndex headers (pyLower cU) = some iu)
    (hkind : M.fields.lookup f = some .otherField)
    (hfields : ∀ p ∈ l1 ++ (cU, f) :: l2, (M.fields.lookup p.2).isSome = true)
    (hl2 : ∀ p ∈ l2, p.2 = f → listIndex headers (pyLower p.1) = Option.none)
    (hh0 : headers[0]? = some h0v)
    (db1 : DB) (hnd : (db1.map Record.pk).Nodup) :
    ∀ (rows : List (List Value)) (db' : DB) (evs : List Event)
      (acc : List (List Instance)),
    fEquiv f db1 db' →
    (∀ r ∈ rows, headers.length ≤ r.length) →
    (∀ r ∈ rows, r[0]? ≠ some (Value.str h0v)) →
    (∀ r ∈ rows, ∀ v, r[iu]? = some v → ∃ p, (dbGet db1 M f v).map Record.pk = [p]) →
    (∃ acc2, (sheetLoop bi headers rows db' evs acc).res = .ok acc2)
    ∧ fEquiv f db1 (sheetLoop bi headers rows db' evs acc).db := by
  intro rows
  induction rows with
  | nil =>
      intro db' evs acc heq _ _ _
      exact ⟨⟨acc, rfl⟩, heq⟩
  | cons r rest ih =>
      intro db' evs acc heq hlen hnh hsing
      have hlenr : headers.length ≤ r.length := hlen r (List.mem_cons_self r rest)
      have hiu : iu < headers.length := listIndex_lt_length headers cu iu hidxu
      have h0lt : 0 < r.length :=
        lt_of_lt_of_le (Nat.lt_of_le_of_lt (Nat.zero_le iu) hiu) hlenr
      have h0 : r[0]? = some r[0] := List.getElem?_eq_getElem h0lt
      have hvlt : iu < r.length := lt_of_lt_of_le hiu hlenr
      have hv : r[iu]? = some r[iu] := List.getElem?_eq_getElem hvlt
      have hne0 : r[0] ≠ Value.str h0v := by
        intro heqq
        exact hnh r (List.mem_cons_self r rest) (by rw [h0, heqq])
      obtain ⟨p, hp⟩ := hsing r (List.mem_cons_self r rest) _ hv
      have hp' : (dbGet db' M f r[iu]).map Record.pk = [p] := by
        rw [← fEquiv_dbGet f db1 db' heq M r[iu]]
        exact hp
      obtain ⟨r0, hr0, hr0pk⟩ : ∃ r0, dbGet db' M f r[iu] = [r0] ∧ r0.pk = p := by
        rcases hq : dbGet db' M f r[iu] with _ | ⟨a, t⟩
        · rw [hq] at hp'
          cases hp'
        · rw [hq] at hp'
          rcases t with _ | ⟨b, t'⟩
          · exact ⟨a, rfl, by injection hp'⟩
          · injection hp' with hh1 hh2
            cases hh2
      have hmf : r0 ∈ db'.filter
          (fun q => decide (q.modelName = M.name ∧ alookup f q.attrs = some r[iu])) := by
        have hm : r0 ∈ dbGet db' M f r[iu] := by
          rw [hr0]
          exact List.mem_singleton_self _
        exact hm
      have hr0mem : r0 ∈ db' := (List.mem_filter.mp hmf).1
      have hcond : r0.modelName = M.name ∧ alookup f r0.attrs = some r[iu] :=
        of_decide_eq_true (List.mem_filter.mp hmf).2
      obtain ⟨attrs, hal, hpr⟩ :=
        (process_row_unique_mapped bi M headers f cu cU l1 l2 iu hbi hcu hidxu hidxU
          hkind hfields hl2 db' r r[iu] hlenr hv).2 r0 hr0
      have hstep : sheetLoop bi headers (r :: rest) db' evs acc
          = sheetLoop bi headers rest
              (db'.map (fun q => if q.pk = r0.pk then { q with attrs := attrs } else q))
              (evs ++ (Event.save ⟨M, some r0.pk, attrs⟩
                :: bi.func_mappings.map (fun i => .aux i headers r)))
              (acc ++ [[⟨M, some r0.pk, attrs⟩]]) := by
        simp only [sheetLoop, h0, hh0]
        rw [if_neg hne0, hpr]
      rw [hstep]
      have hnd' : (db'.map Record.pk).Nodup := by
        rw [← fEquiv_pks f db1 db' heq]
        exact hnd
      have heq' : fEquiv f db1 (db'.map (fun q => if q.pk = r0.pk
          then { q with attrs := attrs } else q)) := by
        refine fEquiv_map f db1 db' _ heq ?_
        intro q hq
        by_cases hqp : q.pk = r0.pk
        · have hq0 : q = r0 := List.inj_on_of_nodup_map hnd' hq hr0mem hqp
          subst hq0
          rw [if_pos hqp]
          refine ⟨rfl, rfl, ?_⟩
          rw [hcond.2]
          exact hal
        · rw [if_neg hqp]
          exact ⟨rfl, rfl, rfl⟩
      exact ih _ _ _ heq'
        (fun r' hr' => hlen r' (List.mem_cons_of_mem _ hr'))
        (fun r' hr' => hnh r' (List.mem_cons_of_mem _ hr'))
        (fun r' hr' => hsing r' (List.mem_cons_of_mem _ hr'))

/-! # Claims -/

/-- C3: value coercion: for a date field an unparseable raw value yields
`None` and never raises; for a short-text or long-text field a falsy raw
value yields the empty string, never null; for any other field kind the raw
value is returned unchanged. -/
theorem process_value_coercion (P : Value → Option Value) (inst : Instance)
    (field : String) (value : Value) (kind : FieldKind)
    (hk : (inst.model.fields).lookup field = some kind) :
    (kind = .dateField → P value = Option.none →
      process_value P inst field value = .ok .null)
    ∧ ((kind = .charField ∨ kind = .textField) → value.truthy = false →
      process_value P inst field value = .ok (.str ""))
    ∧ (kind = .otherField → process_value P inst field value = .ok value) := by
  refine ⟨?_, ?_, ?_⟩
  · rintro rfl hp
    simp [process_value, hk, hp]
  · rintro (rfl | rfl) hv <;> simp [process_value, hk, hv]
  · rintro rfl
    simp [process_value, hk]

/-- Witness for C3 at the three concrete field kinds. -/
theorem process_value_coercion_witness :
    ((wInst.model.fields).lookup "d" = some FieldKind.dateField
      ∧ process_value parseNone wInst "d" (.str "nodate") = .ok .null)
    ∧ ((wInst.model.fields).lookup "c" = some FieldKind.charField
      ∧ process_value parseNone wInst "c" .null = .ok (.str ""))
    ∧ ((wInst.model.fields).lookup "x" = some FieldKind.otherField
      ∧ process_value parseNone wInst "x" (.int 7) = .ok (.int 7)) :=
  ⟨⟨by decide,
    (process_value_coercion parseNone wInst "d" (.str "nodate") .dateField (by decide)).1
      rfl rfl⟩,
   ⟨by decide,
    (process_value_coercion parseNone wInst "c" .null .charField (by decide)).2.1
      (Or.inl rfl) rfl⟩,
   ⟨by decide,
    (process_value_coercion parseNone wInst "x" (.int 7) .otherField (by decide)).2.2
      rfl⟩⟩

/-- C5 (code bug): at the inputs of `test_process_row_single`, the value
`process_row` returns is the bare `affected_records` list — not the
`(records, stats)` pair the contract states and the test suite unpacks. -/
theorem process_row_returns_bare_list :
    process_row_ret singleHandler ["one", "two"] [.str "val1", .str "spot"] []
      = .ok (.list [⟨mockModel, some 0, [("one", .str "val1")]⟩]) := rfl

/-- C4: record resolution: with no unique column a fresh unsaved instance is
constructed; with a unique column present in the headers, the cell value at
its position keys a fetch — no match yields a fresh unsaved instance, one
match yields that record for update — and in the no-match case `process_row`
saves the new instance exactly once (one save event, one appended record). -/
theorem record_resolution_create_or_update (db : DB) (model : Model)
    (headers : List String) (vals : List Value) :
    (∀ uf, find_or_create_record db model Option.none uf headers vals
        = .ok ⟨model, Option.none, []⟩)
    ∧ (∀ (c : String) i value f, c.isEmpty = false → listIndex headers c = some i →
        vals[i]? = some value → dbGet db model f value = [] →
        find_or_create_record db model (some c) (some f) headers vals
          = .ok ⟨model, Option.none, []⟩)
    ∧ (∀ (c : String) i value f r, c.isEmpty = false → listIndex headers c = some i →
        vals[i]? = some value → dbGet db model f value = [r] →
        find_or_create_record db model (some c) (some f) headers vals
          = .ok ⟨model, some r.pk, r.attrs⟩)
    ∧ (∀ (bi : BulkDataImportHandler) (mm : ModelMapping) (inst' : Instance),
        bi.mappings = [mm] → mm.model = model →
        find_or_create_record db model mm.unique_column mm.unique_field headers vals
          = .ok ⟨model, Option.none, []⟩ →
        assign_fields bi.dateParse headers vals mm.mapping ⟨model, Option.none, []⟩
          = .ok inst' →
        ((process_row bi headers vals db).events.filter Event.isSave
            = [.save { inst' with pk := some db.length }]
          ∧ (process_row bi headers vals db).db
            = db ++ [⟨db.length, model.name, inst'.attrs⟩]
          ∧ (process_row bi headers vals db).res
            = .ok [{ inst' with pk := some db.length }])) := by
  refine ⟨?_, ?_, ?_, ?_⟩
  · intro uf
    simp [find_or_create_record]
  · intro c i value f hc hidx hval hget
    simp [find_or_create_record, hc, hidx, hval, hget]
  · intro c i value f r hc hidx hval hget
    simp [find_or_create_record, hc, hidx, hval, hget]
  · intro bi mm inst' hbi hm hfc hasg
    obtain ⟨hpk, hmod⟩ := assign_fields_pk bi.dateParse headers vals mm.mapping _ _ hasg
    rw [show (⟨model, Option.none, []⟩ : Instance).pk = Option.none from rfl] at hpk
    rw [show (⟨model, Option.none, []⟩ : Instance).model = model from rfl] at hmod
    have hrow : process_row bi headers vals db
        = ⟨db ++ [⟨db.length, model.name, inst'.attrs⟩],
           Event.save { inst' with pk := some db.length }
             :: bi.func_mappings.map (fun i => .aux i headers vals),
           .ok [{ inst' with pk := some db.length }]⟩ := by
      rw [process_row, hbi, rowLoop, hm, hfc]
      simp only [hasg, rowLoop, dbSave, hpk, hmod, List.nil_append, List.length_cons,
        List.length_nil, gt_iff_lt, Nat.lt_irrefl, and_false, if_false, List.dropLast_single]
      rfl
    rw [hrow]
    exact ⟨by simp [List.filter, Event.isSave, aux_events_no_save], rfl, rfl⟩

/-- Witness for C4 at concrete inputs: a one-record database, lookups that
miss and hit, and a full `process_row` run that saves once. -/
theorem record_resolution_create_or_update_witness :
    (find_or_create_record [⟨0, "Person", [("uid", .str "u1")]⟩] personModel
        Option.none (some "uid") ["uid"] [.str "u1"]
      = .ok ⟨personModel, Option.none, []⟩)
    ∧ (find_or_create_record [⟨0, "Person", [("uid", .str "u1")]⟩] personModel
        (some "uid") (some "uid") ["uid"] [.str "u2"]
      = .ok ⟨personModel, Option.none, []⟩)
    ∧ (find_or_create_record [⟨0, "Person", [("uid", .str "u1")]⟩] personModel
        (some "uid") (some "uid") ["uid"] [.str "u1"]
      = .ok ⟨personModel, some 0, [("uid", .str "u1")]⟩)
    ∧ ((process_row uidUnmappedHandler ["uid", "one"] [.str "u9", .str "v"] []).events.filter
          Event.isSave
        = [.save ⟨personModel, some 0, [("one", .str "v")]⟩]
      ∧ (process_row uidUnmappedHandler ["uid", "one"] [.str "u9", .str "v"] []).db
        = [] ++ [⟨0, "Person", [("one", .str "v")]⟩]
      ∧ (process_row uidUnmappedHandler ["uid", "one"] [.str "u9", .str "v"] []).res
        = .ok [⟨personModel, some 0, [("one", .str "v")]⟩]) :=
  ⟨(record_resolution_create_or_update [⟨0, "Person", [("uid", .str "u1")]⟩] personModel
      ["uid"] [.str "u1"]).1 (some "uid"),
   (record_resolution_create_or_update [⟨0, "Person", [("uid", .str "u1")]⟩] personModel
      ["uid"] [.str "u2"]).2.1 "uid" 0 (.str "u2") "uid" rfl rfl rfl (by decide),
   (record_resolution_create_or_update [⟨0, "Person", [("uid", .str "u1")]⟩] personModel
      ["uid"] [.str "u1"]).2.2.1 "uid" 0 (.str "u1") "uid" ⟨0, "Person", [("uid", .str "u1")]⟩
      rfl rfl rfl (by decide),
   (record_resolution_create_or_update [] personModel ["uid", "one"]
      [.str "u9", .str "v"]).2.2.2 uidUnmappedHandler
      ⟨personModel, [("one", "one")], some "uid", some "uid"⟩
      ⟨personModel, Option.none, [("one", .str "v")]⟩ rfl rfl rfl rfl⟩

/-- C6: case-insensitive column matching end to end: headers are case-folded
at extraction, the unique column at registration, and every mapped column
before lookup, so a mapping declared in any casing matches a header in any
other casing and the field receives the value at that header's position. -/
theorem column_matching_case_insensitive :
    (∀ (bi : BulkDataImportHandler) model mapping (c : String) uf, c.isEmpty = false →
      bi.add_mapping model mapping (some c) uf
        = { bi with mappings := bi.mappings ++ [⟨model, mapping, some (pyLower c), uf⟩] })
    ∧ (∀ raws : List String,
      extract_headers (raws.map Value.str)
        = .ok ((raws.filter (fun s => !s.isEmpty)).map pyLower))
    ∧ (∀ (hs1 hs2 : List String) (H C : String), pyLower C = pyLower H →
      pyLower H ∉ hs1 →
      listIndex (hs1 ++ pyLower H :: hs2) (pyLower C) = some hs1.length)
    ∧ (∀ (P : Value → Option Value) headers vals (C f H : String) i v (inst : Instance) w,
      pyLower C = pyLower H → listIndex headers (pyLower H) = some i →
      vals[i]? = some v → process_value P inst f v = .ok w →
      assign_fields P headers vals [(C, f)] inst = .ok (inst.setattr f w)) := by
  refine ⟨?_, ?_, ?_, ?_⟩
  · intro bi model mapping c uf hc
    simp [BulkDataImportHandler.add_mapping, hc]
  · intro raws
    induction raws with
    | nil => rfl
    | cons a t ih =>
        by_cases ha : a.isEmpty <;>
          simp [extract_headers, Value.truthy, ha, ih, Except.map]
  · intro hs1 hs2 H C hCH hmem
    rw [hCH]
    induction hs1 with
    | nil => simp [listIndex, listIndex.go]
    | cons a t ih =>
        rw [List.mem_cons, not_or] at hmem
        have h1 := ih hmem.2
        simp only [listIndex, List.cons_append] at h1 ⊢
        rw [listIndex.go.eq_def]
        simp [Ne.symm hmem.1, h1]
  · intro P headers vals C f H i v inst w hCH hidx hval hpv
    simp [assign_fields, hCH, hidx, hval, hpv]

/-- Witness for C6: `"UID"` registered against header `"uid"`, `"First Name"`
against `"first name"`, the lookup position, and the field assignment. -/
theorem column_matching_case_insensitive_witness :
    ((mkHandler parseNone).add_mapping personModel [("one", "one")] (some "UID") (some "uid")
      = { mkHandler parseNone with
          mappings := [⟨personModel, [("one", "one")], some "uid", some "uid"⟩] })
    ∧ extract_headers [.str "First Name", .str "", .str "Age"] = .ok ["first name", "age"]
    ∧ listIndex ["age", "first name", "x"] "first name" = some 1
    ∧ assign_fields parseNone ["age", "first name"] [.int 30, .str "Bob"]
        [("First Name", "c")] wInst = .ok (wInst.setattr "c" (.str "Bob")) :=
  ⟨column_matching_case_insensitive.1 (mkHandler parseNone) personModel [("one", "one")]
      "UID" (some "uid") rfl,
   column_matching_case_insensitive.2.1 ["First Name", "", "Age"],
   column_matching_case_insensitive.2.2.1 ["age"] ["x"] "First Name" "fIRST nAME"
      (by decide) (by decide),
   column_matching_case_insensitive.2.2.2 parseNone ["age", "first name"]
      [.int 30, .str "Bob"] "First Name" "c" "first name" 1 (.str "Bob") wInst
      (.str "Bob") (by decide) rfl rfl rfl⟩

/-- C10 counterexample: with header row `["a", None]` the single extracted
header `"a"` still sits at its raw position 0 and a lookup for column `"a"`
reads the correct cell, although not every header cell is truthy — so
positional alignment does not hold *only when* every header cell is truthy. -/
theorem alignment_without_all_truthy_headers :
    extract_headers [.str "a", .null] = .ok ["a"]
    ∧ listIndex ["a"] "a" = some 0
    ∧ assign_fields parseNone ["a"] [.int 1, .int 2] [("a", "x")] wInst
        = .ok (wInst.setattr "x" (.int 1))
    ∧ (Value.null).truthy = false :=
  ⟨rfl, rfl, rfl, rfl⟩

/-- C10 (amended): header extraction keeps only truthy cells, so a falsy cell
strictly between two non-empty header cells shifts every later header left by
one and lookups for those columns read the cell one position too early; when
every header cell is a truthy string, extraction preserves positions. -/
theorem header_gap_misalignment :
    (extract_headers [.str "a", .null, .str "B"] = .ok ["a", "b"]
      ∧ listIndex ["a", "b"] (pyLower "B") = some 1
      ∧ assign_fields parseNone ["a", "b"] [.int 10, .int 20, .int 30] [("B", "x")] wInst
          = .ok (wInst.setattr "x" (.int 20)))
    ∧ (∀ raws : List String, (∀ s ∈ raws, s.isEmpty = false) →
      extract_headers (raws.map Value.str) = .ok (raws.map pyLower)) := by
  constructor
  · exact ⟨rfl, rfl, rfl⟩
  · intro raws
    induction raws with
    | nil => intro _; rfl
    | cons a t ih =>
        intro h
        have ha : a.isEmpty = false := h a (List.mem_cons_self a t)
        have ht := ih fun s hs => h s (List.mem_cons_of_mem a hs)
        simp [extract_headers, Value.truthy, ha, ht, Except.map]

/-- Witness for the amended C10 at an all-truthy header row. -/
theorem header_gap_misalignment_witness :
    (∀ s ∈ ["Ab", "C"], s.isEmpty = false)
    ∧ extract_headers [.str "Ab", .str "C"] = .ok ["ab", "c"] :=
  ⟨by decide, header_gap_misalignment.2 ["Ab", "C"] (by decide)⟩

/-- C7: a data row whose first cell equals the first (case-folded) header is
skipped as a repeated header and contributes nothing to the results; all
other rows are processed in order: the row loop coincides with the row loop
over the rows whose first cell differs from the first header, and
`process_spreadsheet` therefore processes exactly those rows. -/
theorem repeated_header_rows_skipped (bi : BulkDataImportHandler)
    (headers : List String) (h0 : String) (rows : List (List Value))
    (hh : headers[0]? = some h0)
    (hr : ∀ r ∈ rows, r ≠ ([] : List Value)) :
    (∀ db evs acc, sheetLoop bi headers rows db evs acc
      = sheetLoop bi headers
          (rows.filter (fun r => decide (r[0]? ≠ some (Value.str h0)))) db evs acc)
    ∧ (∀ hrow db, bi.header_row = 0 → bi.first_data_row = 1 →
        extract_headers hrow = .ok headers →
        process_spreadsheet bi (hrow :: rows) db
          = sheetLoop bi headers
              (rows.filter (fun r => decide (r[0]? ≠ some (Value.str h0)))) db [] []) := by
  have main : ∀ (rs : List (List Value)), (∀ r ∈ rs, r ≠ ([] : List Value)) →
      ∀ db evs acc, sheetLoop bi headers rs db evs acc
        = sheetLoop bi headers
            (rs.filter (fun r => decide (r[0]? ≠ some (Value.str h0)))) db evs acc := by
    intro rs
    induction rs with
    | nil => intro _ db evs acc; rfl
    | cons r rest ih =>
        intro hne db evs acc
        obtain ⟨v0, r', rfl⟩ := List.exists_cons_of_ne_nil (hne r (List.mem_cons_self r rest))
        have ihr := ih fun q hq => hne q (List.mem_cons_of_mem _ hq)
        by_cases hv : v0 = Value.str h0
        · have h1 : List.filter (fun r => decide (r[0]? ≠ some (Value.str h0)))
                ((v0 :: r') :: rest)
              = List.filter (fun r => decide (r[0]? ≠ some (Value.str h0))) rest := by
            rw [List.filter_cons]
            simp [hv]
          have h2 : sheetLoop bi headers ((v0 :: r') :: rest) db evs acc
              = sheetLoop bi headers rest db evs acc := by
            simp only [sheetLoop, List.getElem?_cons_zero, hh]
            rw [if_pos hv]
          rw [h1, h2]
          exact ihr db evs acc
        · have h1 : List.filter (fun r => decide (r[0]? ≠ some (Value.str h0)))
                ((v0 :: r') :: rest)
              = (v0 :: r') :: List.filter (fun r => decide (r[0]? ≠ some (Value.str h0))) rest := by
            rw [List.filter_cons]
            simp [hv]
          have h2 : ∀ (rs : List (List Value)) (db : DB) (evs : List Event)
              (acc : List (List Instance)),
              sheetLoop bi headers ((v0 :: r') :: rs) db evs acc
                = match process_row bi headers (v0 :: r') db with
                  | ⟨db', evs', .error e⟩ => ⟨db', evs ++ evs', .error e⟩
                  | ⟨db', evs', .ok recs⟩ =>
                      sheetLoop bi headers rs db' (evs ++ evs') (acc ++ [recs]) := by
            intro rs db evs acc
            simp only [sheetLoop, List.getElem?_cons_zero, hh]
            rw [if_neg hv]
          rw [h1, h2, h2]
          rcases hpr : process_row bi headers (v0 :: r') db with ⟨db', evs', res⟩
          rcases res with e | recs
          · rfl
          · exact ihr db' (evs ++ evs') (acc ++ [recs])
  refine ⟨main rows hr, ?_⟩
  intro hrow db hhr hfd hex
  rw [process_spreadsheet, hhr, hfd]
  simp only [List.getElem?_cons_zero, hex, List.drop_succ_cons, List.drop_zero]
  exact main rows hr db [] []

/-- Witness for C7: a spreadsheet whose second data row repeats the header. -/
theorem repeated_header_rows_skipped_witness :
    (["uid", "one"] : List String)[0]? = some "uid"
    ∧ (∀ r ∈ [[Value.str "u1", Value.str "v1"], [Value.str "uid", Value.str "one"],
          [Value.str "u2", Value.str "v2"]], r ≠ ([] : List Value))
    ∧ process_spreadsheet uidMappedHandler
        [[.str "UID", .str "One"], [.str "u1", .str "v1"], [.str "uid", .str "one"],
         [.str "u2", .str "v2"]] []
      = sheetLoop uidMappedHandler ["uid", "one"]
          ([[Value.str "u1", Value.str "v1"], [Value.str "uid", Value.str "one"],
            [Value.str "u2", Value.str "v2"]].filter
            (fun r => decide (r[0]? ≠ some (Value.str "uid")))) [] [] [] :=
  ⟨rfl, by decide,
   (repeated_header_rows_skipped uidMappedHandler ["uid", "one"] "uid"
      [[.str "u1", .str "v1"], [.str "uid", .str "one"], [.str "u2", .str "v2"]]
      rfl (by decide)).2 [.str "UID", .str "One"] [] rfl rfl rfl⟩

/-- C8: a mapped (column, field) pair whose case-folded column is absent from
the headers is skipped silently: removing the pair changes nothing, no error
is raised; when every pair assigning a field has an absent column the field
keeps its unset value; and the entity is still appended to the results and
saved. -/
theorem absent_mapped_column_skipped (P : Value → Option Value)
    (headers : List String) (vals : List Value) :
    (∀ (l1 l2 : List (String × String)) (c f : String) (inst : Instance),
      listIndex headers (pyLower c) = Option.none →
      assign_fields P headers vals (l1 ++ (c, f) :: l2) inst
        = assign_fields P headers vals (l1 ++ l2) inst)
    ∧ (∀ (l : List (String × String)) (f : String) (inst inst' : Instance),
      (∀ p ∈ l, p.2 = f → listIndex headers (pyLower p.1) = Option.none) →
      assign_fields P headers vals l inst = .ok inst' →
      inst'.attr f = inst.attr f)
    ∧ (∀ (bi : BulkDataImportHandler) (mm : ModelMapping) (db : DB)
        (inst inst' : Instance),
      bi.mappings = [mm] → bi.dateParse = P →
      find_or_create_record db mm.model mm.unique_column mm.unique_field headers vals
        = .ok inst →
      assign_fields P headers vals mm.mapping inst = .ok inst' →
      ((process_row bi headers vals db).res = .ok [(dbSave db inst').2]
        ∧ (process_row bi headers vals db).events.filter Event.isSave
            = [.save (dbSave db inst').2])) := by
  refine ⟨?_, ?_, ?_⟩
  · intro l1 l2 c f inst habs
    induction l1 generalizing inst with
    | nil => simp only [List.nil_append, assign_fields, habs]
    | cons p l1' ih =>
        obtain ⟨c', f'⟩ := p
        simp only [List.cons_append, assign_fields]
        split
        · exact ih _
        · split
          · rfl
          · split
            · rfl
            · exact ih _
  · intro l f
    induction l with
    | nil =>
        intro inst inst' _ h
        cases h
        rfl
    | cons p rest ih =>
        obtain ⟨c', f'⟩ := p
        intro inst inst' hab h
        rw [assign_fields] at h
        split at h
        · exact ih inst inst' (fun q hq hf => hab q (List.mem_cons_of_mem _ hq) hf) h
        · rename_i idx hidx
          have hq : f' ≠ f := by
            intro hpf
            have habs := hab (c', f') (List.mem_cons_self _ rest) hpf
            rw [habs] at hidx
            cases hidx
          split at h
          · cases h
          · split at h
            · cases h
            · rename_i raw hraw value hval
              have hrec := ih (inst.setattr f' value) inst'
                  (fun q hqq hf => hab q (List.mem_cons_of_mem _ hqq) hf) h
              rw [hrec]
              simp [Instance.attr, Instance.setattr, alookup, Ne.symm hq]
  · intro bi mm db inst inst' hbi hp hfc hasg
    rw [← hp] at hasg
    have hrow : process_row bi headers vals db
        = ⟨(dbSave db inst').1,
           Event.save (dbSave db inst').2
             :: bi.func_mappings.map (fun i => .aux i headers vals),
           .ok [(dbSave db inst').2]⟩ := by
      rw [process_row, hbi, rowLoop, hfc]
      simp only [hasg, rowLoop, List.nil_append, List.length_cons, List.length_nil,
        gt_iff_lt, Nat.lt_irrefl, and_false, if_false, List.dropLast_single]
      rfl
    rw [hrow]
    exact ⟨rfl, by simp [List.filter, Event.isSave, aux_events_no_save]⟩

/-- C2: with a linking function registered, each mapping step beyond the
first appends the new entity and invokes the linking function with all
entities resolved so far for the row, in registration order — after the
append (the link arguments end with the new, still-unsaved entity) and
before that entity's save (the save event follows the link event); the first
step invokes nothing; and over a successful `process_row` the linking
function runs exactly once per entity past the first. -/
theorem linking_function_invocations (bi : BulkDataImportHandler)
    (headers : List String) (vals : List Value) (hlf : bi.linking_func = true) :
    (∀ (mm : ModelMapping) (ms : List ModelMapping) (db : DB) (evs : List Event)
      (recs : List Instance) (inst inst' : Instance),
      recs ≠ [] →
      find_or_create_record db mm.model mm.unique_column mm.unique_field headers vals
        = .ok inst →
      assign_fields bi.dateParse headers vals mm.mapping inst = .ok inst' →
      rowLoop bi headers vals (mm :: ms) db evs recs
        = rowLoop bi headers vals ms (dbSave db inst').1
            (evs ++ [.link (recs ++ [inst']), .save (dbSave db inst').2])
            (recs ++ [(dbSave db inst').2]))
    ∧ (∀ (mm : ModelMapping) (ms : List ModelMapping) (db : DB) (evs : List Event)
      (inst inst' : Instance),
      find_or_create_record db mm.model mm.unique_column mm.unique_field headers vals
        = .ok inst →
      assign_fields bi.dateParse headers vals mm.mapping inst = .ok inst' →
      rowLoop bi headers vals (mm :: ms) db evs []
        = rowLoop bi headers vals ms (dbSave db inst').1
            (evs ++ [.save (dbSave db inst').2]) [(dbSave db inst').2])
    ∧ (∀ (db : DB) (recs' : List Instance),
      (process_row bi headers vals db).res = .ok recs' →
      ((process_row bi headers vals db).events.filter Event.isLink).length
        = recs'.length - 1) := by
  refine ⟨?_, ?_, ?_⟩
  · intro mm ms db evs recs inst inst' hne hfc hasg
    rw [rowLoop_step bi headers vals mm ms db evs recs inst inst' hfc hasg]
    have hlen : 0 < recs.length := List.length_pos.mpr hne
    rw [if_pos ⟨hlf, by simp only [List.length_append, List.length_cons, List.length_nil]; omega⟩,
      List.append_assoc]
    rfl
  · intro mm ms db evs inst inst' hfc hasg
    rw [rowLoop_step bi headers vals mm ms db evs [] inst inst' hfc hasg]
    rw [if_neg (fun hcc => by
      simp only [List.nil_append, List.length_cons, List.length_nil, gt_iff_lt] at hcc
      omega)]
    rfl
  · intro db recs' hres
    rw [process_row_res] at hres
    have hlen := rowLoop_length bi headers vals bi.mappings db [] [] recs' hres
    have hcnt := rowLoop_link_count bi headers vals hlf bi.mappings db [] [] recs' hres
    rw [process_row_events_ok bi headers vals db recs' hres, List.filter_append,
      aux_events_no_link, List.append_nil, hcnt]
    simp only [List.filter_nil, List.length_nil, List.length_cons] at hlen ⊢
    omega

/-- Witness for C2 at the inputs of `test_process_row_multi`: two mappings,
a linking function, one link call with both records in order, placed between
the two saves. -/
theorem linking_function_invocations_witness :
    multiHandler.linking_func = true
    ∧ (process_row multiHandler ["one", "two"] [.str "val1", .str "spot"] []).res
        = .ok [⟨mockModel, some 0, [("one", .str "val1")]⟩,
               ⟨mockModel, some 1, [("two", .str "spot")]⟩]
    ∧ (process_row multiHandler ["one", "two"] [.str "val1", .str "spot"] []).events
        = [.save ⟨mockModel, some 0, [("one", .str "val1")]⟩,
           .link [⟨mockModel, some 0, [("one", .str "val1")]⟩,
                  ⟨mockModel, Option.none, [("two", .str "spot")]⟩],
           .save ⟨mockModel, some 1, [("two", .str "spot")]⟩]
    ∧ ((process_row multiHandler ["one", "two"] [.str "val1", .str "spot"] []).events.filter
          Event.isLink).length = 2 - 1 :=
  ⟨rfl, rfl, rfl,
   (linking_function_invocations multiHandler ["one", "two"] [.str "val1", .str "spot"]
      rfl).2.2 []
      [⟨mockModel, some 0, [("one", .str "val1")]⟩,
       ⟨mockModel, some 1, [("two", .str "spot")]⟩] rfl⟩

/-- C1: a truthy unique column that matches no (case-folded) header makes
resolution fail with `MissingUniqueHeaderException` naming the column; the
error propagates out of `process_row` and out of `process_spreadsheet`,
aborting the import while keeping everything already saved — by earlier
mappings of the failing row and by earlier rows — in the database. -/
theorem missing_unique_header_aborts_import (bi : BulkDataImportHandler)
    (headers : List String) (vals : List Value)
    (pre rest : List ModelMapping) (mm : ModelMapping) (c : String)
    (hbi : bi.mappings = pre ++ mm :: rest)
    (huc : mm.unique_column = some c) (hc : c.isEmpty = false)
    (habs : listIndex headers c = Option.none) :
    (∀ db1 : DB, find_or_create_record db1 mm.model mm.unique_column mm.unique_field
        headers vals = .error (.missingUniqueHeader c))
    ∧ (∀ (db : DB) (recs1 : List Instance),
        (rowLoop bi headers vals pre db [] []).res = .ok recs1 →
        process_row bi headers vals db
          = ⟨(rowLoop bi headers vals pre db [] []).db,
             (rowLoop bi headers vals pre db [] []).events,
             .error (.missingUniqueHeader c)⟩)
    ∧ (∀ (hrow : List Value) (rows1 rows2 : List (List Value)) (db0 : DB)
        (acc1 : List (List Instance)) (h0v : String) (v0 : Value)
        (recs1 : List Instance),
        bi.header_row = 0 → bi.first_data_row = 1 →
        extract_headers hrow = .ok headers →
        (sheetLoop bi headers rows1 db0 [] []).res = .ok acc1 →
        vals[0]? = some v0 → headers[0]? = some h0v → v0 ≠ Value.str h0v →
        (rowLoop bi headers vals pre (sheetLoop bi headers rows1 db0 [] []).db [] []).res
          = .ok recs1 →
        process_spreadsheet bi (hrow :: (rows1 ++ vals :: rows2)) db0
          = ⟨(process_row bi headers vals (sheetLoop bi headers rows1 db0 [] []).db).db,
             (sheetLoop bi headers rows1 db0 [] []).events
               ++ (process_row bi headers vals
                     (sheetLoop bi headers rows1 db0 [] []).db).events,
             .error (.missingUniqueHeader c)⟩) := by
  have part1 : ∀ db1 : DB, find_or_create_record db1 mm.model mm.unique_column
      mm.unique_field headers vals = .error (.missingUniqueHeader c) := by
    intro db1
    rw [huc]
    exact find_or_create_missing db1 mm.model c mm.unique_field headers vals hc habs
  have part2 : ∀ (db : DB) (recs1 : List Instance),
      (rowLoop bi headers vals pre db [] []).res = .ok recs1 →
      process_row bi headers vals db
        = ⟨(rowLoop bi headers vals pre db [] []).db,
           (rowLoop bi headers vals pre db [] []).events,
           .error (.missingUniqueHeader c)⟩ := by
    intro db recs1 hpre
    rw [process_row, hbi,
      rowLoop_append bi headers vals pre (mm :: rest) db [] [] recs1 hpre,
      rowLoop, part1]
  refine ⟨part1, part2, ?_⟩
  intro hrow rows1 rows2 db0 acc1 h0v v0 recs1 hh0 hf1 hex hpres hv0 hhead hne hrowpre
  rw [process_spreadsheet, hh0, hf1]
  simp only [List.getElem?_cons_zero, hex, List.drop_succ_cons, List.drop_zero]
  rw [sheetLoop_append bi headers rows1 (vals :: rows2) db0 [] [] acc1 hpres]
  have hstep : sheetLoop bi headers (vals :: rows2)
      (sheetLoop bi headers rows1 db0 [] []).db
      (sheetLoop bi headers rows1 db0 [] []).events acc1
      = ⟨(process_row bi headers vals (sheetLoop bi headers rows1 db0 [] []).db).db,
         (sheetLoop bi headers rows1 db0 [] []).events
           ++ (process_row bi headers vals
                 (sheetLoop bi headers rows1 db0 [] []).db).events,
         .error (.missingUniqueHeader c)⟩ := by
    simp only [sheetLoop, hv0, hhead]
    rw [if_neg hne,
      part2 (sheetLoop bi headers rows1 db0 [] []).db recs1 hrowpre]
  rw [hstep]

/-- Witness for C1 at the setting of `test_missing_unique_field`: the second
mapping's unique column `personid` is missing; the first mapping's saved
record and the pre-existing record survive the abort. -/
theorem missing_unique_header_aborts_import_witness :
    preMissHandler.mappings
      = [⟨mockModel, [("one", "one")], Option.none, Option.none⟩]
        ++ ⟨personModel, [("one", "one")], some "personid", some "uid"⟩ :: []
    ∧ listIndex ["uid", "one"] "personid" = Option.none
    ∧ process_spreadsheet preMissHandler
        [[.str "UID", .str "One"], [.str "u1", .str "v1"]] [⟨0, "X", []⟩]
      = ⟨[⟨0, "X", []⟩, ⟨1, "MyModel", [("one", .str "v1")]⟩],
         [.save ⟨mockModel, some 1, [("one", .str "v1")]⟩],
         .error (.missingUniqueHeader "personid")⟩ :=
  ⟨rfl, rfl,
   (missing_unique_header_aborts_import preMissHandler ["uid", "one"]
      [.str "u1", .str "v1"] [⟨mockModel, [("one", "one")], Option.none, Option.none⟩] []
      ⟨personModel, [("one", "one")], some "personid", some "uid"⟩ "personid"
      rfl rfl rfl rfl).2.2
      [.str "UID", .str "One"] [] [] [⟨0, "X", []⟩] [] "uid" (.str "u1")
      [⟨mockModel, some 1, [("one", .str "v1")]⟩]
      rfl rfl rfl rfl rfl rfl (by decide) rfl⟩

/-- Witness for C8: mapping with a nonexistent column (as in
`test_mapped_column_no_data`): the pair is skipped, the field stays unset,
the row is still saved. -/
theorem absent_mapped_column_skipped_witness :
    listIndex ["uid", "one"] (pyLower "nonexistant column") = Option.none
    ∧ assign_fields parseNone ["uid", "one"] [.str "u1", .str "v1"]
        ([] ++ ("nonexistant column", "x") :: [("one", "one")]) wInst
      = assign_fields parseNone ["uid", "one"] [.str "u1", .str "v1"]
          ([] ++ [("one", "one")]) wInst :=
  ⟨rfl,
   (absent_mapped_column_skipped parseNone ["uid", "one"] [.str "u1", .str "v1"]).1
      [] [("one", "one")] "nonexistant column" "x" wInst rfl⟩

/-- C9 counterexample: with a unique column/field configured but the unique
column not among the mapped columns, the unique value is never stored on the
created records, so re-importing the same spreadsheet (distinct unique values
per row) doubles the record count instead of leaving it unchanged. -/
theorem roundtrip_duplicates_when_unique_value_not_stored :
    (process_spreadsheet uidUnmappedHandler uidGrid []).db.length = 2
    ∧ (process_spreadsheet uidUnmappedHandler uidGrid []).res
        = .ok [[⟨personModel, some 0, [("one", .str "v1")]⟩],
               [⟨personModel, some 1, [("one", .str "v2")]⟩]]
    ∧ (process_spreadsheet uidUnmappedHandler uidGrid
        (process_spreadsheet uidUnmappedHandler uidGrid []).db).db.length = 4
    ∧ (process_spreadsheet uidUnmappedHandler uidGrid
        (process_spreadsheet uidUnmappedHandler uidGrid []).db).res
        = .ok [[⟨personModel, some 2, [("one", .str "v1")]⟩],
               [⟨personModel, some 3, [("one", .str "v2")]⟩]] :=
  ⟨rfl, rfl, rfl, rfl⟩

/-- C9 (amended): for a mapping with unique column and unique field
configured where the unique column is itself among the mapped columns and
mapped onto the unique field with no later pair reassigning the unique field
from a present column (so the unique value is stored on creation, as in the
repository's `test_unique_field`), the unique field's coercion is
pass-through, every mapped field exists on the model, and the data rows are
at least as long as the headers, none repeating the header row, each with a
distinct unique-column value: importing the same spreadsheet a second time
against the storage state left by the first import fetches and updates the
existing records instead of constructing new ones — both imports succeed,
the first creates one record per row, and the second leaves the record count
unchanged. -/
theorem roundtrip_preserves_record_count (bi : BulkDataImportHandler) (M : Model)
    (headers : List String) (f cu cU : String) (l1 l2 : List (String × String))
    (iu : Nat) (h0v : String)
    (hbi : bi.mappings = [⟨M, l1 ++ (cU, f) :: l2, some cu, some f⟩])
    (hcu : cu.isEmpty = false)
    (hidxu : listIndex headers cu = some iu)
    (hidxU : listIndex headers (pyLower cU) = some iu)
    (hkind : M.fields.lookup f = some .otherField)
    (hfields : ∀ p ∈ l1 ++ (cU, f) :: l2, (M.fields.lookup p.2).isSome = true)
    (hl2 : ∀ p ∈ l2, p.2 = f → listIndex headers (pyLower p.1) = Option.none)
    (hh0 : headers[0]? = some h0v)
    (hh0r : bi.header_row = 0) (hf1 : bi.first_data_row = 1)
    (hrow : List Value) (hex : extract_headers hrow = .ok headers)
    (rows : List (List Value))
    (hlen : ∀ r ∈ rows, headers.length ≤ r.length)
    (hnh : ∀ r ∈ rows, r[0]? ≠ some (Value.str h0v))
    (hdist : (rows.map (fun r => r[iu]?)).Nodup) :
    ∃ acc1 acc2,
      (process_spreadsheet bi (hrow :: rows) []).res = .ok acc1
      ∧ (process_spreadsheet bi (hrow :: rows)
          (process_spreadsheet bi (hrow :: rows) []).db).res = .ok acc2
      ∧ (process_spreadsheet bi (hrow :: rows) []).db.length = rows.length
      ∧ (process_spreadsheet bi (hrow :: rows)
          (process_spreadsheet bi (hrow :: rows) []).db).db.length
        = (process_spreadsheet bi (hrow :: rows) []).db.length := by
  have hsheet : ∀ db0 : DB, process_spreadsheet bi (hrow :: rows) db0
      = sheetLoop bi headers rows db0 [] [] := by
    intro db0
    rw [process_spreadsheet, hh0r, hf1]
    simp only [List.getElem?_cons_zero, hex, List.drop_succ_cons, List.drop_zero]
  have hpk0 : ∀ (i : Nat) (q : Record), ([] : DB)[i]? = some q → q.pk = i := by
    intro i q hq
    simp at hq
  have hfresh0 : ∀ r ∈ rows, ∀ v, r[iu]? = some v → dbGet ([] : DB) M f v = [] :=
    fun _ _ _ _ => rfl
  obtain ⟨⟨acc1, hres1⟩, hlen1, hpk1, hsing1, _⟩ :=
    first_pass bi M headers f cu cU l1 l2 iu h0v hbi hcu hidxu hidxU hkind hfields
      hl2 hh0 rows [] [] [] hpk0 hfresh0 hlen hnh hdist
  have hnd : ((sheetLoop bi headers rows [] [] []).db.map Record.pk).Nodup :=
    pks_positions_nodup _ hpk1
  obtain ⟨⟨acc2, hres2⟩, heq2⟩ :=
    second_pass bi M headers f cu cU l1 l2 iu h0v hbi hcu hidxu hidxU hkind hfields
      hl2 hh0 (sheetLoop bi headers rows [] [] []).db hnd rows
      (sheetLoop bi headers rows [] [] []).db [] []
      (fEquiv_refl f _) hlen hnh hsing1
  refine ⟨acc1, acc2, ?_, ?_, ?_, ?_⟩
  · rw [hsheet]
    exact hres1
  · rw [hsheet, hsheet]
    exact hres2
  · rw [hsheet, hlen1]
    simp
  · rw [hsheet, hsheet]
    exact heq2.length_eq.symm

/-- Witness for the amended C9 at a multi-column configuration in the style
of `test_unique_field`: the mapping carries the unique column `UID` and a
further column `one`; two rows with distinct unique values import to two
records, and a second import keeps the count at two. -/
theorem roundtrip_preserves_record_count_witness :
    uidMappedHandler.mappings
      = [⟨personModel, [] ++ ("UID", "uid") :: [("one", "one")], some "uid", some "uid"⟩]
    ∧ listIndex ["uid", "one"] "uid" = some 0
    ∧ listIndex ["uid", "one"] (pyLower "UID") = some 0
    ∧ extract_headers [.str "uid", .str "one"] = .ok ["uid", "one"]
    ∧ (∃ acc1 acc2,
      (process_spreadsheet uidMappedHandler uidGrid []).res = .ok acc1
      ∧ (process_spreadsheet uidMappedHandler uidGrid
          (process_spreadsheet uidMappedHandler uidGrid []).db).res = .ok acc2
      ∧ (process_spreadsheet uidMappedHandler uidGrid []).db.length = 2
      ∧ (process_spreadsheet uidMappedHandler uidGrid
          (process_spreadsheet uidMappedHandler uidGrid []).db).db.length
        = (process_spreadsheet uidMappedHandler uidGrid []).db.length) :=
  ⟨rfl, rfl, rfl, rfl,
   roundtrip_preserves_record_count uidMappedHandler personModel ["uid", "one"]
      "uid" "uid" "UID" [] [("one", "one")] 0 "uid"
      rfl rfl rfl rfl rfl (by decide) (by decide) rfl rfl rfl
      [.str "uid", .str "one"] rfl
      [[.str "u1", .str "v1"], [.str "u2", .str "v2"]]
      (by decide) (by decide) (by decide)⟩



end BulkImport
